import Mathlib

/-!
Verification model of the `scorelib` score-rendering core
(`src/ios/SoloBandUltra/include/scorelib.h` and the xcframework header
`src/ios/SoloBandUltra/lib/libscorelib.xcframework/.../Headers/scorelib.h`).

The repository ships only the two C headers declaring the boundary
operations; the pipeline implementation (Document Parser, Semantic Model
Builder, Transposition Stage, Layout Engine, Timing Unroller, MIDI
Generator) is not in the sources.  Every definition below whose doc
comment starts with `Modelled from the spec:` is therefore a shallow
embedding built from the specification's own words (spec.md §3–§7),
not from implementation code.  Machine floating point at the boundary
(`double page_width`) is modelled with exact rationals, byte buffers of
the boundary with an explicit input datatype, and the C `NULL`
absence-of-result sentinel with `Option`.
-/

namespace Scorelib

/-- Modelled from the spec: a pitch is "(step, alteration in semitones,
octave)" (§3, Note-Event).  `step` indexes the seven letter names C..B. -/
structure Pitch where
  step : Fin 7
  alter : Int
  octave : Int
deriving DecidableEq, Repr

/-- Semitone offset of each letter-name step above C (C D E F G A B). -/
def stepSemis (st : Fin 7) : Int :=
  [0, 2, 4, 5, 7, 9, 11].getD st.val 0

/-- Modelled from the spec: the "equivalent signed semitone-from-reference
encoding" of a pitch (§3); reference is MIDI's C-1 = 0, so C4 maps to 60. -/
def toSemitone (p : Pitch) : Int :=
  12 * (p.octave + 1) + stepSemis p.step + p.alter

/-- Sharp-preferring spelling of a pitch class: step plus alteration. -/
def sharpTable (pc : Fin 12) : Fin 7 × Int :=
  match pc.val with
  | 0 => (0, 0) | 1 => (0, 1) | 2 => (1, 0) | 3 => (1, 1)
  | 4 => (2, 0) | 5 => (3, 0) | 6 => (3, 1) | 7 => (4, 0)
  | 8 => (4, 1) | 9 => (5, 0) | 10 => (5, 1) | _ => (6, 0)

/-- Flat-preferring spelling of a pitch class: step plus alteration. -/
def flatTable (pc : Fin 12) : Fin 7 × Int :=
  match pc.val with
  | 0 => (0, 0) | 1 => (1, -1) | 2 => (1, 0) | 3 => (2, -1)
  | 4 => (2, 0) | 5 => (3, 0) | 6 => (4, -1) | 7 => (4, 0)
  | 8 => (5, -1) | 9 => (5, 0) | 10 => (6, -1) | _ => (6, 0)

/-- Pitch class (0..11) of a semitone encoding. -/
def pcOf (s : Int) : Fin 12 :=
  ⟨(s % 12).toNat, by
    have h1 : 0 ≤ s % 12 := Int.emod_nonneg s (by norm_num)
    have h2 : s % 12 < 12 := Int.emod_lt_of_pos s (by norm_num)
    omega⟩

/-- Modelled from the spec: "re-deriving the display spelling (step +
alteration) using a deterministic enharmonic-preference rule (… fall back
to sharps for ascending offsets and flats for descending)" (§4.3). -/
def respell (s : Int) (sharps : Bool) : Pitch :=
  let sp := if sharps then sharpTable (pcOf s) else flatTable (pcOf s)
  { step := sp.1, alter := sp.2, octave := s / 12 - 1 }

/-- Modelled from the spec: a duration is "a rational fraction of a whole
note (numerator/denominator, never a floating approximation)" (§3). -/
structure Duration where
  num : Nat
  den : Nat
deriving DecidableEq, Repr

/-- Fraction of a whole note as an exact rational. -/
def Duration.whole (d : Duration) : ℚ := (d.num : ℚ) / (d.den : ℚ)

/-- Duration in quarter notes (four quarters to the whole note). -/
def Duration.quarters (d : Duration) : ℚ := 4 * d.whole

/-- Modelled from the spec: Note-Event is a "variant over Note(pitch,
duration, tie-flag, …), Chord(set of pitches sharing one duration),
Rest(duration)" (§3), a tagged union dispatched by pattern matching (§9). -/
inductive NoteEvent where
  | note (pitch : Pitch) (dur : Duration) (tie : Bool)
  | chord (pitches : List Pitch) (dur : Duration)
  | rest (dur : Duration)
deriving DecidableEq, Repr

/-- Duration carried by a note-event. -/
def NoteEvent.dur : NoteEvent → Duration
  | .note _ d _ => d
  | .chord _ d => d
  | .rest d => d

/-- Pitches sounded by a note-event (empty for a rest). -/
def NoteEvent.pitches : NoteEvent → List Pitch
  | .note p _ _ => [p]
  | .chord ps _ => ps
  | .rest _ => []

/-- Modelled from the spec: kinds of Directions anchored in a measure —
"tempo change, … repeat-start/repeat-end, navigation marker" (§3).
`jumpTo` abstracts the da-capo/dal-segno/coda navigation markers as an
explicit jump to a target measure index of the repeat/navigation graph. -/
inductive DirKind where
  | tempoChange (bpm : Nat)
  | repeatStart
  | repeatEnd
  | jumpTo (target : Nat)
deriving DecidableEq, Repr

/-- Modelled from the spec: a Direction "anchored at a beat offset within
the measure" (§3); the offset is in quarter notes from the barline. -/
structure Direction where
  offset : ℚ
  kind : DirKind
deriving DecidableEq, Repr

/-- Modelled from the spec: a Measure holds its "active clef/key/time
signature", an ordered sequence of Voices, and a set of Directions (§3).
The key signature is a signed count of sharps (negative for flats); a
Voice is its ordered list of Note-Events; `pickup` marks an explicitly
partial (pickup) measure, exempt from duration conservation. -/
structure Measure where
  key : Int
  tsNum : Nat
  tsDen : Nat
  pickup : Bool
  voices : List (List NoteEvent)
  directions : List Direction
deriving DecidableEq, Repr

/-- Modelled from the spec: a Part is an "ordered sequence of Measures for
one instrument/staff group" (§3). -/
structure Part where
  measures : List Measure
deriving DecidableEq, Repr

/-- Modelled from the spec: a Score is an "ordered sequence of Parts;
global metadata (title, initial tempo)" (§3). -/
structure Score where
  title : String
  initialTempo : Nat
  parts : List Part
deriving DecidableEq, Repr

/-! ## Transposition Stage (spec §4.3) -/

/-- Modelled from the spec: enharmonic preference — "prefer the spelling
matching the active key signature's accidental set; fall back to sharps
for ascending offsets and flats for descending" (§4.3).  A sharp-side key
(positive fifths) prefers sharps, a flat-side key flats; for a neutral key
the direction of the offset decides. -/
def useSharps (n key : Int) : Bool :=
  if 0 < key then true else if key < 0 then false else 0 < n

/-- Modelled from the spec: transposing one pitch "adds a fixed semitone
offset to every pitched Note-Event's encoded pitch, re-deriving the
display spelling" (§4.3). -/
def transposePitch (n key : Int) (p : Pitch) : Pitch :=
  respell (toSemitone p + n) (useSharps n key)

/-- Transposition of one note-event (rests are unchanged). -/
def transposeEvent (n key : Int) : NoteEvent → NoteEvent
  | .note p d t => .note (transposePitch n key p) d t
  | .chord ps d => .chord (ps.map (transposePitch n key)) d
  | .rest d => .rest d

/-- Transposition of one measure; structural content other than pitches
(durations, signatures, directions) is untouched. -/
def transposeMeasure (n : Int) (m : Measure) : Measure :=
  { m with voices := m.voices.map (List.map (transposeEvent n m.key)) }

/-- Transposition of one part. -/
def transposePart (n : Int) (pt : Part) : Part :=
  { pt with measures := pt.measures.map (transposeMeasure n) }

/-- Modelled from the spec: the Transposition Stage is a "pure function
over the Score" shifting every pitched note-event by a semitone offset;
"Offset 0 is a no-op (identity)" (§4.3). -/
def transposeScore (n : Int) (sc : Score) : Score :=
  if n = 0 then sc else { sc with parts := sc.parts.map (transposePart n) }

/-- Semitone encodings of the pitches of one note-event. -/
def eventSemis (e : NoteEvent) : List Int :=
  e.pitches.map toSemitone

/-- Semitone encodings sounded by one voice, in order. -/
def voiceSemis (v : List NoteEvent) : List Int :=
  v.flatMap eventSemis

/-- Semitone encodings sounded by one measure, voices in order. -/
def measureSemis (m : Measure) : List Int :=
  m.voices.flatMap voiceSemis

/-- Semitone encodings sounded by one part, measures in order. -/
def partSemis (pt : Part) : List Int :=
  pt.measures.flatMap measureSemis

/-- The semitone sequence of every pitch of the score, in traversal
order (parts, measures, voices, events, chord pitches). -/
def pitchSemisList (sc : Score) : List Int :=
  sc.parts.flatMap partSemis

/-- The pitch-class sequence (semitones mod 12) of every pitch of the
score, in traversal order. -/
def pitchClassList (sc : Score) : List Int :=
  (pitchSemisList sc).map (· % 12)

/-! ## Layout Engine (spec §4.4) -/

/-- Modelled from the spec: the default page width, "default 820 user
units when the caller passes 0 or omits a width" (§4.4). -/
def defaultPageWidth : ℚ := 820

/-- Modelled from the spec: "a zero or negative page width is not an
error — it is normalized to the default before layout proceeds" (§4.4). -/
def normalizeWidth (w : ℚ) : ℚ :=
  if w ≤ 0 then defaultPageWidth else w

/-- Modelled from the spec: "a configurable minimum glyph width to avoid
collision" (§4.4); fixed here at 10 user units. -/
def minGlyphWidth : ℚ := 10

/-- Modelled from the spec: horizontal space for one event, "proportional
to a spacing function of note duration (shorter notes closer together,
with a configurable minimum glyph width)" (§4.4). -/
def eventSpace (e : NoteEvent) : ℚ :=
  minGlyphWidth + 8 * e.dur.quarters

/-- Width of one measure: barline padding plus the spacing of the events
of its first (layout-driving) voice. -/
def measureContentWidth (m : Measure) : ℚ :=
  20 + ((m.voices.headD []).map eventSpace).sum

/-- Measures of the first Part, which drives system packing, timing
unrolling, and the playback map's per-measure geometry. -/
def leadMeasures (sc : Score) : List Measure :=
  match sc.parts with
  | [] => []
  | pt :: _ => pt.measures

/-- Greedy packing of measure widths into systems: measure indices are
accumulated left to right and a new system starts when the next measure
would overflow the page width (§4.4). -/
def packAux (pw : ℚ) : List ℚ → ℚ → Nat → List Nat → List (List Nat)
  | [], _, _, cur => if cur.isEmpty then [] else [cur.reverse]
  | w :: ws, curW, i, cur =>
    if cur.isEmpty ∨ curW + w ≤ pw then
      packAux pw ws (curW + w) (i + 1) (i :: cur)
    else
      cur.reverse :: packAux pw ws w (i + 1) [i]

/-- Systems of measure indices for a score at a page width. -/
def packSystems (sc : Score) (pw : ℚ) : List (List Nat) :=
  packAux pw ((leadMeasures sc).map measureContentWidth) 0 0 []

/-- Modelled from the spec: layout geometry is a "per-System list of
Measure x-offsets and widths" plus "System y-offsets" (§3).  A box gives
one measure's index, x-offset and width. -/
structure MeasureBox where
  measure : Nat
  x : ℚ
  width : ℚ
deriving DecidableEq, Repr

/-- One laid-out system: its index, y-offset, and measure boxes. -/
structure SystemBox where
  index : Nat
  y : ℚ
  boxes : List MeasureBox
deriving DecidableEq, Repr

/-- Vertical distance between consecutive systems. -/
def systemHeight : ℚ := 120

/-- Boxes of one system: x-offsets accumulate the measure widths. -/
def systemBoxes (ms : List Measure) : List Nat → ℚ → List MeasureBox
  | [], _ => []
  | i :: is, x =>
    let w := measureContentWidth (ms.getD i ⟨0, 4, 4, false, [], []⟩)
    ⟨i, x, w⟩ :: systemBoxes ms is (x + w)

/-- Modelled from the spec: the Layout Engine packs "Measures into Systems
up to the target page width" and stacks "Systems into Pages" (§4.4); the
vertical stacking is a single running y-offset here. -/
def layoutScore (sc : Score) (pw : ℚ) : List SystemBox :=
  let ms := leadMeasures sc
  (packSystems sc pw).enum.map fun sys =>
    ⟨sys.1, (sys.1 : ℚ) * systemHeight, systemBoxes ms sys.2 0⟩

/-- Layout position (x, y) attached to a measure index: the box of the
measure in the laid-out systems (origin when the index is absent). -/
def lookupPos (geom : List SystemBox) (mi : Nat) : ℚ × ℚ :=
  match geom.findSome? (fun sb =>
    (sb.boxes.find? (fun b => b.measure = mi)).map fun b => (b.x, sb.y)) with
  | some p => p
  | none => (0, 0)

/-- SVG serialization of one pitch glyph. -/
def svgPitch (p : Pitch) : String :=
  "<note step=\"" ++ toString p.step.val ++ "\" alter=\"" ++ toString p.alter ++
    "\" octave=\"" ++ toString p.octave ++ "\"/>"

/-- SVG serialization of one event. -/
def svgEvent (e : NoteEvent) : String :=
  String.join (e.pitches.map svgPitch) ++ "<d n=\"" ++ toString e.dur.num ++
    "\" d=\"" ++ toString e.dur.den ++ "\"/>"

/-- SVG serialization of one measure box, keyed by the stable
`measure-<index>` identifier required by §4.4. -/
def svgMeasure (ms : List Measure) (b : MeasureBox) : String :=
  "<g id=\"measure-" ++ toString b.measure ++ "\" x=\"" ++ toString b.x ++
    "\" w=\"" ++ toString b.width ++ "\">" ++
    String.join ((((ms.getD b.measure ⟨0, 4, 4, false, [], []⟩).voices.headD []).map svgEvent)) ++
    "</g>"

/-- SVG serialization of one system, keyed by `system-<index>` (§4.4). -/
def svgSystem (ms : List Measure) (sb : SystemBox) : String :=
  "<g id=\"system-" ++ toString sb.index ++ "\" y=\"" ++ toString sb.y ++ "\">" ++
    String.join (sb.boxes.map (svgMeasure ms)) ++ "</g>"

/-- Modelled from the spec: the SVG artifact, "a self-contained document
whose top-level groups are keyed by stable `measure-<index>` /
`system-<index>` identifiers" (§4.4), produced deterministically from the
score and the (already normalized) page width. -/
def renderSvg (sc : Score) (pw : ℚ) : String :=
  "<svg width=\"" ++ toString pw ++ "\">" ++
    String.join ((layoutScore sc pw).map (svgSystem (leadMeasures sc))) ++ "</svg>"

/-! ## Timing Unroller (spec §4.5) -/

/-- Modelled from the spec: the "maximum-pass-count policy (default 2
passes through any repeat-end without an explicit different target)"
(§3). -/
def maxPasses : Nat := 2

/-- Modelled from the spec: a Playback Timeline entry — "(absolute
elapsed time from start, reference to originating Measure/Voice/
beat-offset, reference to the … x/y layout position)" (§3), with a pass
index distinguishing revisits (§4.5).  Time is in milliseconds. -/
structure TimelineEntry where
  timeMs : ℚ
  measure : Nat
  pass : Nat
  beat : ℚ
  x : ℚ
  y : ℚ
deriving DecidableEq, Repr

/-- Traversal state of the unroller: current measure index, absolute time
in milliseconds, current tempo in bpm, per-measure counts of taken
backward jumps (the pass-count policy's bookkeeping), and per-measure
visit counts (the pass index of the next visit). -/
structure UState where
  idx : Nat
  time : ℚ
  tempo : Nat
  taken : List Nat
  visits : List Nat
deriving DecidableEq, Repr

/-- Tempo-change directions of a measure as (beat offset, bpm) pairs. -/
def tempoDirs (m : Measure) : List (ℚ × Nat) :=
  m.directions.filterMap fun d =>
    match d.kind with
    | .tempoChange bpm => some (d.offset, bpm)
    | _ => none

/-- Modelled from the spec: elapsed milliseconds of a beat span — the
"cumulative integration of 60 / current-tempo-bpm *
beat-duration-in-quarter-notes" (§4.5), scaled to milliseconds. -/
def beatMs (tempo : Nat) (quarters : ℚ) : ℚ :=
  60 / (tempo : ℚ) * quarters * 1000

/-- One measure's walk: each event of the timing voice yields a timeline
entry at the running absolute time; tempo-change directions anchored at
or before the event's beat take effect from that event on (a change
anchored inside an event's span applies from the next event).  Returns
the entries, the end time, and the tempo in force at the barline. -/
def processEvents (mi pass : Nat) (pos : ℚ × ℚ) :
    List NoteEvent → List (ℚ × Nat) → ℚ → ℚ → Nat →
    List TimelineEntry × ℚ × Nat
  | [], _, _, t, tempo => ([], t, tempo)
  | e :: es, dirs, b, t, tempo =>
    let tempo' := (dirs.filter (fun d => d.1 ≤ b)).foldl (fun _ d => d.2) tempo
    let rest := dirs.filter fun d => ¬ d.1 ≤ b
    let dq := e.dur.quarters
    let out := processEvents mi pass pos es rest (b + dq) (t + beatMs tempo' dq) tempo'
    (⟨t, mi, pass, b, pos.1, pos.2⟩ :: out.1, out.2)

/-- First repeat-end or navigation-jump direction of a measure. -/
def navOf (m : Measure) : Option (Option Nat) :=
  m.directions.findSome? fun d =>
    match d.kind with
    | .repeatEnd => some none
    | .jumpTo tgt => some (some tgt)
    | _ => none

/-- Whether the measure at an index carries a repeat-start direction. -/
def hasRepeatStartAt (ms : List Measure) (i : Nat) : Bool :=
  match ms.get? i with
  | some m => m.directions.any fun d => d.kind = DirKind.repeatStart
  | none => false

/-- Backward search for the repeat-start matching a repeat-end: the
nearest repeat-start at or before the given index, else measure 0. -/
def repeatTarget (ms : List Measure) : Nat → Nat
  | 0 => 0
  | i + 1 => if hasRepeatStartAt ms (i + 1) then i + 1 else repeatTarget ms i

/-- One traversal step of the unroller.  `none` means the walk has left
the measure range and the timeline is complete.  Otherwise the current
measure is played (emitting its entries), and the repeat/navigation
graph decides the next measure: a repeat-end or jump is taken only while
its pass-count budget (`maxPasses - 1` takes) is unspent; an exhausted
budget falls through to the next measure (§3, §4.5). -/
def unrollStep (ms : List Measure) (geom : List SystemBox) (s : UState) :
    Option (List TimelineEntry × UState) :=
  match ms.get? s.idx with
  | none => none
  | some m =>
    let pass := s.visits.getD s.idx 0
    let out := processEvents s.idx pass (lookupPos geom s.idx)
      (m.voices.headD []) (tempoDirs m) 0 s.time s.tempo
    let visits' := s.visits.set s.idx (pass + 1)
    let fallthrough : UState :=
      ⟨s.idx + 1, out.2.1, out.2.2, s.taken, visits'⟩
    match navOf m with
    | none => some (out.1, fallthrough)
    | some tgt? =>
      let tk := s.taken.getD s.idx 0
      if tk + 1 < maxPasses then
        let tgt := match tgt? with
          | none => repeatTarget ms s.idx
          | some t => t
        some (out.1, ⟨tgt, out.2.1, out.2.2, s.taken.set s.idx (tk + 1), visits'⟩)
      else
        some (out.1, fallthrough)

/-- Fuel-driven unrolling loop.  The Boolean records whether the walk
completed (`true`) or was cut off by exhausted fuel (`false`); the final
state is returned for inspection of the pass-count bookkeeping. -/
def unrollAux (ms : List Measure) (geom : List SystemBox) :
    Nat → UState → List TimelineEntry × Bool × UState
  | 0, s => ([], false, s)
  | fuel + 1, s =>
    match unrollStep ms geom s with
    | none => ([], true, s)
    | some (es, s') =>
      let out := unrollAux ms geom fuel s'
      (es ++ out.1, out.2)

/-- Fuel budget: strictly more than the traversal can ever consume under
the pass-count policy (each of the `M` measures can spend at most
`maxPasses - 1` backward jumps, and between jumps at most `M + 1` forward
steps happen). -/
def defaultFuel (M : Nat) : Nat :=
  M * (maxPasses - 1) * (M + 1) + M + 1

/-- Initial traversal state: "starting at the first Measure" (§4.5) at
time zero with the score's initial tempo. -/
def initState (sc : Score) (M : Nat) : UState :=
  ⟨0, 0, sc.initialTempo, List.replicate M 0, List.replicate M 0⟩

/-- Full unroller run: timeline, completion flag, final state. -/
def unrollFull (sc : Score) (pw : ℚ) : List TimelineEntry × Bool × UState :=
  let ms := leadMeasures sc
  unrollAux ms (layoutScore sc pw) (defaultFuel ms.length) (initState sc ms.length)

/-- Modelled from the spec: the Playback Timeline of a score laid out at
a page width — the ordered entry sequence of §3/§4.5. -/
def playbackTimeline (sc : Score) (pw : ℚ) : List TimelineEntry :=
  (unrollFull sc pw).1

/-! ## Pipeline stages, error taxonomy and boundary (spec §4.1–§4.2, §6, §7) -/

/-- Modelled from the spec: the error taxonomy of §7.  At the boundary
every kind collapses to the same absence-of-result sentinel. -/
inductive RenderError where
  | parseErr
  | modelErr
  | layoutErr
  | unrollErr
  | midiErr
deriving DecidableEq, Repr

/-- Modelled from the spec: the Document Parser's input — "raw bytes plus
an optional format hint" (§4.1).  Decompression and byte decoding are the
excluded boundary's work, so the input is abstracted to either malformed
content (any byte buffer the Parser rejects) or a well-formed raw tree,
which this model identifies with the score description it denotes. -/
inductive InputDoc where
  | malformed
  | wellFormed (raw : Score)
deriving DecidableEq, Repr

/-- Modelled from the spec: the Document Parser, a pure function yielding
"a raw element tree or a typed parse error" (§4.1); the format hint does
not change what content is accepted (container handling is external). -/
def parseDoc (_ext : Option String) : InputDoc → Except RenderError Score
  | .malformed => .error .parseErr
  | .wellFormed raw => .ok raw

/-- Nominal duration of a measure under its time signature, as a fraction
of a whole note. -/
def nominalDuration (m : Measure) : ℚ :=
  (m.tsNum : ℚ) / (m.tsDen : ℚ)

/-- Modelled from the spec: duration conservation — "the sum of event
durations must equal the measure's nominal duration under the active time
signature, except for explicitly marked partial (pickup) measures" (§3). -/
def measureValid (m : Measure) : Bool :=
  m.pickup || m.voices.all fun v =>
    (v.map fun e => e.dur.whole).sum = nominalDuration m

/-- A score is valid when every non-pickup measure of every part
reconciles its voice durations with its time signature. -/
def scoreValid (sc : Score) : Bool :=
  sc.parts.all fun pt => pt.measures.all measureValid

/-- Modelled from the spec: the Semantic Model Builder "fails with a
`ModelError` when a Measure's voice durations cannot reconcile with its
time signature and the measure is not marked partial" (§4.2); the
normalization itself (signature inheritance, tie matching) is kept
abstract, the built Score being the validated input tree. -/
def buildModel (raw : Score) : Except RenderError Score :=
  if scoreValid raw then .ok raw else .error .modelErr

/-- Modelled from the spec: the SVG render pipeline — parse, build the
semantic model, apply the Transposition Stage, normalize the page width,
lay out and serialize (§2, §6).  Each stage fails fast (§7). -/
def renderPipeline (d : InputDoc) (ext : Option String) (pw : ℚ) (t : Int) :
    Except RenderError String := do
  let raw ← parseDoc ext d
  let sc ← buildModel raw
  pure (renderSvg (transposeScore t sc) (normalizeWidth pw))

/-- Modelled from the spec: the SVG render pipeline with the
Transposition Stage omitted entirely — the comparison object the spec's
required test property names (§4.3). -/
def renderPipelineNoStage (d : InputDoc) (ext : Option String) (pw : ℚ) :
    Except RenderError String := do
  let raw ← parseDoc ext d
  let sc ← buildModel raw
  pure (renderSvg sc (normalizeWidth pw))

/-- Serialization of one timeline entry into the playback-map JSON. -/
def jsonEntry (e : TimelineEntry) : String :=
  "[" ++ toString e.timeMs ++ "," ++ toString e.measure ++ "," ++
    toString e.pass ++ "," ++ toString e.x ++ "," ++ toString e.y ++ "]"

/-- Serialization of the layout geometry into the playback-map JSON. -/
def jsonGeom (geom : List SystemBox) : String :=
  String.join (geom.map fun sb =>
    "[" ++ toString sb.index ++ "," ++ toString sb.y ++ "," ++
      String.join (sb.boxes.map fun b =>
        "[" ++ toString b.measure ++ "," ++ toString b.x ++ "," ++
          toString b.width ++ "]") ++ "]")

/-- Playback-map JSON for a built, transposed score: measure and system
positions plus the unrolled timeline (§6). -/
def playbackJson (sc : Score) (pw : ℚ) : String :=
  "[" ++ jsonGeom (layoutScore sc pw) ++ "," ++
    String.join ((playbackTimeline sc pw).map jsonEntry) ++ "]"

/-- Modelled from the spec: the playback-map pipeline (§6, "Generate
playback map"). -/
def playbackPipeline (d : InputDoc) (ext : Option String) (pw : ℚ) (t : Int) :
    Except RenderError String := do
  let raw ← parseDoc ext d
  let sc ← buildModel raw
  pure (playbackJson (transposeScore t sc) (normalizeWidth pw))

/-- The playback-map pipeline with the Transposition Stage omitted. -/
def playbackPipelineNoStage (d : InputDoc) (ext : Option String) (pw : ℚ) :
    Except RenderError String := do
  let raw ← parseDoc ext d
  let sc ← buildModel raw
  pure (playbackJson sc (normalizeWidth pw))

/-! ## MIDI Generator (spec §4.6) -/

/-- Modelled from the spec: one per-part assignment of the generation
configuration — "per-part channel/instrument assignment" (§4.6).  The
channel is signed so that out-of-range values below 0 are expressible. -/
structure PartAssign where
  part : Nat
  channel : Int
  instrument : Nat
deriving DecidableEq, Repr

/-- Modelled from the spec: the MIDI generation configuration, an
"already-decoded configuration structure" supplied by the boundary
(§4.6): tempo override, per-part assignments, tick resolution. -/
structure MidiConfig where
  tempoOverride : Option Nat
  assignments : List PartAssign
  resolution : Nat
deriving DecidableEq, Repr

/-- Modelled from the spec: `MidiGenError` — raised for "an invalid
channel (outside 0–15) or an unreachable part index" (§4.6). -/
inductive MidiGenError where
  | invalidChannel (c : Int)
  | invalidPart (i : Nat)
deriving DecidableEq, Repr

/-- An assignment is invalid when its channel lies outside 0–15 or its
part index reaches no part of the score. -/
def badAssign (sc : Score) (a : PartAssign) : Bool :=
  a.channel < 0 || 15 < a.channel || sc.parts.length ≤ a.part

/-- Configuration check of the MIDI Generator: the first invalid
assignment decides the error; an absent configuration passes (§4.6). -/
def checkConfig (sc : Score) : Option MidiConfig → Except MidiGenError Unit
  | none => .ok ()
  | some cfg =>
    match cfg.assignments.find? (badAssign sc) with
    | none => .ok ()
    | some a =>
      if a.channel < 0 ∨ 15 < a.channel then .error (.invalidChannel a.channel)
      else .error (.invalidPart a.part)

/-- MIDI note number of a pitch, clamped into one data byte. -/
def midiNote (p : Pitch) : Nat :=
  (toSemitone p).toNat % 128

/-- Channel assigned to a part: the configured one if any, else the
default "sequential channel assignment starting at channel 0" (§4.6). -/
def channelOf (cfg : Option MidiConfig) (i : Nat) : Nat :=
  match cfg with
  | none => i % 16
  | some c =>
    match c.assignments.find? (fun a => a.part = i) with
    | some a => a.channel.toNat % 16
    | none => i % 16

/-- Serialized note bytes of one part's track: note number and channel of
every pitched event in order (a faithful SMF event encoding is abstracted
to this deterministic byte sequence). -/
def trackBytes (cfg : Option MidiConfig) (i : Nat) (pt : Part) : List Nat :=
  pt.measures.flatMap fun m =>
    m.voices.flatMap fun v =>
      v.flatMap fun e => e.pitches.flatMap fun p =>
        [144 + channelOf cfg i, midiNote p]

/-- Modelled from the spec: the SMF Type 1 content — header, conductor
tempo (the override when configured, else the document tempo, §4.6), then
one track per part. -/
def smfBytes (sc : Score) (cfg : Option MidiConfig) : List Nat :=
  let tempo := match cfg with
    | some c => match c.tempoOverride with
      | some t => t
      | none => sc.initialTempo
    | none => sc.initialTempo
  [77, 84, 104, 100, 0, 1, sc.parts.length + 1, tempo % 256, tempo / 256] ++
    (sc.parts.enum.flatMap fun pi => trackBytes cfg pi.1 pi.2)

/-- Modelled from the spec: the MIDI Generator — checks the configuration
and emits the SMF bytes, failing with a `MidiGenError` on an invalid
configuration (§4.6). -/
def generateMidi (sc : Score) (cfg : Option MidiConfig) :
    Except MidiGenError (List Nat) :=
  match checkConfig sc cfg with
  | .error e => .error e
  | .ok _ => .ok (smfBytes sc cfg)

/-- Modelled from the spec: the MIDI pipeline of the boundary's
"Generate MIDI" operation (§6): parse, build, generate; any stage's
failure fails the whole operation (§7). -/
def midiPipeline (d : InputDoc) (ext : Option String) (cfg : Option MidiConfig) :
    Except RenderError (List Nat) := do
  let raw ← parseDoc ext d
  let sc ← buildModel raw
  match generateMidi sc cfg with
  | .error _ => .error .midiErr
  | .ok bs => pure bs

/-- The MIDI pipeline with a Transposition Stage of offset `t` applied
upstream of generation ("transposition already applied upstream", §4.6). -/
def midiPipelineT (d : InputDoc) (ext : Option String) (t : Int)
    (cfg : Option MidiConfig) : Except RenderError (List Nat) := do
  let raw ← parseDoc ext d
  let sc ← buildModel raw
  match generateMidi (transposeScore t sc) cfg with
  | .error _ => .error .midiErr
  | .ok bs => pure bs

/-! ## Boundary operations (the two C headers) -/

/-- Boundary operation `scorelib_render_bytes` of the xcframework header:
data, format hint,
page width, transpose; `NULL` on error becomes `none`. -/
def scorelib_render_bytes (d : InputDoc) (ext : Option String) (pw : ℚ)
    (transpose : Int) : Option String :=
  (renderPipeline d ext pw transpose).toOption

/-- Boundary operation `scorelib_render_file` of the xcframework header;
path resolution and
reading are the boundary's work, so the function consumes the file's
already-read content. -/
def scorelib_render_file (contents : InputDoc) (pw : ℚ) (transpose : Int) :
    Option String :=
  scorelib_render_bytes contents none pw transpose

/-- Boundary operation `scorelib_playback_map` of the xcframework header. -/
def scorelib_playback_map (d : InputDoc) (ext : Option String) (pw : ℚ)
    (transpose : Int) : Option String :=
  (playbackPipeline d ext pw transpose).toOption

/-- Boundary operation `scorelib_generate_midi_from_bytes` of the xcframework
header; the
options-JSON decoding is the boundary's work (§1), so the function
consumes the already-decoded configuration (`none` for a NULL options
string). -/
def scorelib_generate_midi_from_bytes (d : InputDoc) (ext : Option String)
    (cfg : Option MidiConfig) : Option (List Nat) :=
  (midiPipeline d ext cfg).toOption

namespace IncludeAPI

/-- Boundary operation `scorelib_render_bytes` as declared in
`src/ios/SoloBandUltra/include/scorelib.h`: no transpose parameter.
Modelled from the spec: the plain "Render to SVG" operation of §6, the
pipeline without the Transposition Stage. -/
def scorelib_render_bytes (d : InputDoc) (ext : Option String) (pw : ℚ) :
    Option String :=
  (renderPipelineNoStage d ext pw).toOption

/-- Boundary operation `scorelib_render_file` as declared in
`src/ios/SoloBandUltra/include/scorelib.h`, over the file's content. -/
def scorelib_render_file (contents : InputDoc) (pw : ℚ) : Option String :=
  scorelib_render_bytes contents none pw

end IncludeAPI

/-! ## Concrete documents for the spec's scenarios -/

/-- A quarter note at a given letter step and octave, unaltered. -/
def quarterNote (st : Fin 7) (oct : Int) : NoteEvent :=
  .note ⟨st, 0, oct⟩ ⟨1, 4⟩ false

/-- Scenario A document (§8): one measure, 4/4, a single voice of four
quarter notes (one note per beat), initial tempo 120 bpm. -/
def scenarioADoc : Score :=
  ⟨"Scenario A", 120,
    [⟨[⟨0, 4, 4, false,
        [[quarterNote 0 4, quarterNote 1 4, quarterNote 2 4, quarterNote 3 4]],
        []⟩]⟩]⟩

/-- A document whose navigation marker jumps back to itself on every
arrival: an unresolvable infinite loop without the pass-count bound. -/
def loopDoc : Score :=
  ⟨"Loop", 120,
    [⟨[⟨0, 4, 4, false, [[quarterNote 0 4]], [⟨0, .jumpTo 0⟩]⟩]⟩]⟩

/-- Whether a pipeline stage result is a failure. -/
def failed {ε α : Type} : Except ε α → Bool
  | .error _ => true
  | .ok _ => false

/-! ## Traversal bookkeeping used by the termination argument -/

/-- Pass-count invariant of the traversal state: one taken-counter per
measure, each within the pass-count budget. -/
def StateInv (ms : List Measure) (s : UState) : Prop :=
  s.taken.length = ms.length ∧ ∀ x ∈ s.taken, x ≤ maxPasses - 1

/-- Decreasing measure of the traversal: remaining jump budget weighted
by the longest jump-free run, plus the remaining forward distance. -/
def stepsLeft (ms : List Measure) (s : UState) : Nat :=
  (ms.length * (maxPasses - 1) - s.taken.sum) * (ms.length + 1) +
    (ms.length - s.idx)

/-! ## Lemmas: enharmonic spelling and transposition -/

theorem stepSemis_add_sharpTable :
    ∀ pc : Fin 12, stepSemis (sharpTable pc).1 + (sharpTable pc).2 = (pc.val : Int) := by
  decide

theorem stepSemis_add_flatTable :
    ∀ pc : Fin 12, stepSemis (flatTable pc).1 + (flatTable pc).2 = (pc.val : Int) := by
  decide

theorem pcOf_val (s : Int) : ((pcOf s).val : Int) = s % 12 := by
  simp only [pcOf]
  exact Int.toNat_of_nonneg (Int.emod_nonneg s (by norm_num))

/-- Respelling preserves the sounding pitch: the semitone encoding of the
respelled pitch is exactly the encoding respelled from. -/
theorem toSemitone_respell (s : Int) (b : Bool) :
    toSemitone (respell s b) = s := by
  have hs := stepSemis_add_sharpTable (pcOf s)
  have hf := stepSemis_add_flatTable (pcOf s)
  rw [pcOf_val] at hs hf
  cases b <;> simp [respell, toSemitone] <;> omega

theorem toSemitone_transposePitch (n key : Int) (p : Pitch) :
    toSemitone (transposePitch n key p) = toSemitone p + n := by
  simp [transposePitch, toSemitone_respell]

/-- Transposing by zero is the identity on scores. -/
theorem transposeScore_zero (sc : Score) : transposeScore 0 sc = sc := by
  simp [transposeScore]

theorem eventSemis_transposeEvent (n key : Int) (e : NoteEvent) :
    eventSemis (transposeEvent n key e) = (eventSemis e).map (· + n) := by
  cases e <;>
    simp [eventSemis, transposeEvent, NoteEvent.pitches, List.map_map,
      Function.comp_def, toSemitone_transposePitch]

theorem voiceSemis_transpose (n key : Int) (v : List NoteEvent) :
    voiceSemis (v.map (transposeEvent n key)) = (voiceSemis v).map (· + n) := by
  induction v with
  | nil => rfl
  | cons e es ih =>
    simp [voiceSemis, List.flatMap_cons] at ih ⊢
    rw [eventSemis_transposeEvent, ih]

theorem measureSemis_transpose (n : Int) (m : Measure) :
    measureSemis (transposeMeasure n m) = (measureSemis m).map (· + n) := by
  rcases m with ⟨key, tn, td, pk, voices, dirs⟩
  simp only [transposeMeasure, measureSemis]
  induction voices with
  | nil => rfl
  | cons v vs ih =>
    simp [List.flatMap_cons] at ih ⊢
    rw [voiceSemis_transpose, ih]

theorem partSemis_transpose (n : Int) (pt : Part) :
    partSemis (transposePart n pt) = (partSemis pt).map (· + n) := by
  rcases pt with ⟨measures⟩
  simp only [transposePart, partSemis]
  induction measures with
  | nil => rfl
  | cons m rest ih =>
    simp [List.flatMap_cons] at ih ⊢
    rw [measureSemis_transpose, ih]

/-- Every transposition shifts the score's semitone sequence uniformly. -/
theorem pitchSemisList_transpose (n : Int) (sc : Score) :
    pitchSemisList (transposeScore n sc) = (pitchSemisList sc).map (· + n) := by
  by_cases h : n = 0
  · subst h
    simp [transposeScore_zero]
  · rcases sc with ⟨title, tempo, parts⟩
    simp only [transposeScore, if_neg h, pitchSemisList]
    induction parts with
    | nil => rfl
    | cons pt pts ih =>
      simp [List.flatMap_cons] at ih ⊢
      rw [partSemis_transpose, ih]

/-! ## Lemmas: timeline monotonicity -/

theorem Duration.quarters_nonneg (d : Duration) : 0 ≤ d.quarters := by
  unfold Duration.quarters Duration.whole
  positivity

theorem beatMs_nonneg (tempo : Nat) (q : ℚ) (hq : 0 ≤ q) : 0 ≤ beatMs tempo q := by
  unfold beatMs
  have h60 : (0 : ℚ) ≤ 60 / (tempo : ℚ) := by positivity
  exact mul_nonneg (mul_nonneg h60 hq) (by norm_num)

/-- Order on timeline entries by absolute time. -/
def entryLe (a b : TimelineEntry) : Prop := a.timeMs ≤ b.timeMs

theorem processEvents_bounds (mi pass : Nat) (pos : ℚ × ℚ) :
    ∀ (es : List NoteEvent) (dirs : List (ℚ × Nat)) (b t : ℚ) (tempo : Nat),
      t ≤ (processEvents mi pass pos es dirs b t tempo).2.1 ∧
      List.Chain' entryLe (processEvents mi pass pos es dirs b t tempo).1 ∧
      ∀ e ∈ (processEvents mi pass pos es dirs b t tempo).1,
        t ≤ e.timeMs ∧ e.timeMs ≤ (processEvents mi pass pos es dirs b t tempo).2.1 := by
  intro es
  induction es with
  | nil =>
    intro dirs b t tempo
    refine ⟨le_refl t, List.chain'_nil, ?_⟩
    intro e he
    simp [processEvents] at he
  | cons e es ih =>
    intro dirs b t tempo
    simp only [processEvents]
    set tempo' := ((dirs.filter (fun d => d.1 ≤ b)).foldl (fun _ d => d.2) tempo) with htempo
    set rest := dirs.filter fun d => ¬ d.1 ≤ b with hrest
    set dq := e.dur.quarters with hdq
    have hdt : 0 ≤ beatMs tempo' dq := beatMs_nonneg _ _ (Duration.quarters_nonneg _)
    have hstep : t ≤ t + beatMs tempo' dq := by linarith
    obtain ⟨iht, ihchain, ihmem⟩ := ih rest (b + dq) (t + beatMs tempo' dq) tempo'
    refine ⟨le_trans hstep iht, ?_, ?_⟩
    · refine List.chain'_cons'.2 ⟨?_, ihchain⟩
      intro y hy
      have hy' := List.mem_of_mem_head? hy
      exact le_trans hstep (ihmem y hy').1
    · intro x hx
      rcases List.mem_cons.1 hx with hx | hx
      · subst hx
        exact ⟨le_refl _, le_trans hstep iht⟩
      · obtain ⟨h1, h2⟩ := ihmem x hx
        exact ⟨le_trans hstep h1, h2⟩

theorem unrollStep_time (ms : List Measure) (geom : List SystemBox)
    (s : UState) (es : List TimelineEntry) (s' : UState)
    (h : unrollStep ms geom s = some (es, s')) :
    s.time ≤ s'.time ∧ List.Chain' entryLe es ∧
      ∀ e ∈ es, s.time ≤ e.timeMs ∧ e.timeMs ≤ s'.time := by
  unfold unrollStep at h
  cases hm : ms.get? s.idx with
  | none => rw [hm] at h; exact absurd h (by simp)
  | some m =>
    rw [hm] at h
    simp only [] at h
    obtain ⟨ht, hchain, hmem⟩ :=
      processEvents_bounds s.idx (s.visits.getD s.idx 0) (lookupPos geom s.idx)
        (m.voices.headD []) (tempoDirs m) 0 s.time s.tempo
    cases hn : navOf m with
    | none =>
      rw [hn] at h
      injection h with h'
      injection h' with h1 h2
      subst h1; subst h2
      exact ⟨ht, hchain, hmem⟩
    | some tgt? =>
      rw [hn] at h
      dsimp only at h
      by_cases hb : s.taken.getD s.idx 0 + 1 < maxPasses
      · rw [if_pos hb] at h
        injection h with h'
        injection h' with h1 h2
        subst h1; subst h2
        exact ⟨ht, hchain, hmem⟩
      · rw [if_neg hb] at h
        injection h with h'
        injection h' with h1 h2
        subst h1; subst h2
        exact ⟨ht, hchain, hmem⟩

theorem unrollAux_chain (ms : List Measure) (geom : List SystemBox) :
    ∀ (fuel : Nat) (s : UState),
      List.Chain' entryLe (unrollAux ms geom fuel s).1 ∧
      ∀ e ∈ (unrollAux ms geom fuel s).1, s.time ≤ e.timeMs := by
  intro fuel
  induction fuel with
  | zero =>
    intro s
    exact ⟨List.chain'_nil, by intro e he; simp [unrollAux] at he⟩
  | succ fuel ih =>
    intro s
    simp only [unrollAux]
    cases hstep : unrollStep ms geom s with
    | none =>
      exact ⟨List.chain'_nil, by intro e he; simp at he⟩
    | some p =>
      obtain ⟨es, s'⟩ := p
      obtain ⟨ht, hchain, hmem⟩ := unrollStep_time ms geom s es s' hstep
      obtain ⟨ihchain, ihmem⟩ := ih s'
      constructor
      · refine List.chain'_append.2 ⟨hchain, ihchain, ?_⟩
        intro x hx y hy
        obtain ⟨hne, hxl⟩ := List.mem_getLast?_eq_getLast hx
        have hxmem : x ∈ es := hxl ▸ List.getLast_mem hne
        have hymem := List.mem_of_mem_head? hy
        exact le_trans (hmem x hxmem).2 (ihmem y hymem)
      · intro e he
        rcases List.mem_append.1 he with he | he
        · exact (hmem e he).1
        · exact le_trans ht (ihmem e he)

/-! ## Lemmas: bounded traversal (pass-count policy) -/

theorem sum_set_add (l : List Nat) (i v : Nat) :
    i < l.length → (l.set i v).sum + l.getD i 0 = l.sum + v := by
  induction l generalizing i with
  | nil => intro h; simp at h
  | cons a l ih =>
    intro h
    cases i with
    | zero => simp [List.set]; omega
    | succ i =>
      simp only [List.set, List.sum_cons, List.getD_cons_succ]
      have := ih i (by simpa using h)
      omega

theorem taken_sum_le (ms : List Measure) (s : UState) (h : StateInv ms s) :
    s.taken.sum ≤ ms.length * (maxPasses - 1) := by
  obtain ⟨hlen, hall⟩ := h
  have := List.sum_le_card_nsmul s.taken (maxPasses - 1) hall
  rw [smul_eq_mul, hlen] at this
  omega

theorem get?_lt_length {α : Type} (l : List α) (i : Nat) (a : α)
    (h : l.get? i = some a) : i < l.length := by
  by_contra hc
  rw [List.get?_eq_none.2 (by omega)] at h
  exact absurd h (by simp)

/-- One traversal step preserves the pass-count invariant and strictly
decreases the termination measure. -/
theorem unrollStep_measure (ms : List Measure) (geom : List SystemBox)
    (s : UState) (es : List TimelineEntry) (s' : UState)
    (hInv : StateInv ms s) (h : unrollStep ms geom s = some (es, s')) :
    StateInv ms s' ∧ stepsLeft ms s' < stepsLeft ms s := by
  unfold unrollStep at h
  cases hm : ms.get? s.idx with
  | none => rw [hm] at h; exact absurd h (by simp)
  | some m =>
    rw [hm] at h
    dsimp only at h
    have hidx : s.idx < ms.length := get?_lt_length ms s.idx m hm
    obtain ⟨hlen, hall⟩ := hInv
    cases hn : navOf m with
    | none =>
      rw [hn] at h
      injection h with h'
      injection h' with h1 h2
      subst h1; subst h2
      refine ⟨⟨hlen, hall⟩, ?_⟩
      unfold stepsLeft
      dsimp only
      omega
    | some tgt? =>
      rw [hn] at h
      dsimp only at h
      by_cases hb : s.taken.getD s.idx 0 + 1 < maxPasses
      · rw [if_pos hb] at h
        injection h with h'
        injection h' with h1 h2
        subst h1; subst h2
        have hidx' : s.idx < s.taken.length := by omega
        have hInv' : StateInv ms
            ⟨match tgt? with | none => repeatTarget ms s.idx | some t => t,
              (processEvents s.idx (s.visits.getD s.idx 0) (lookupPos geom s.idx)
                (m.voices.headD []) (tempoDirs m) 0 s.time s.tempo).2.1,
              (processEvents s.idx (s.visits.getD s.idx 0) (lookupPos geom s.idx)
                (m.voices.headD []) (tempoDirs m) 0 s.time s.tempo).2.2,
              s.taken.set s.idx (s.taken.getD s.idx 0 + 1),
              s.visits.set s.idx (s.visits.getD s.idx 0 + 1)⟩ := by
          refine ⟨by simpa using hlen, ?_⟩
          intro x hx
          rcases List.mem_or_eq_of_mem_set hx with hx | hx
          · exact hall x hx
          · omega
        refine ⟨hInv', ?_⟩
        have hsum := sum_set_add s.taken s.idx (s.taken.getD s.idx 0 + 1) hidx'
        have hbound := taken_sum_le ms _ hInv'
        dsimp only at hbound
        unfold stepsLeft
        dsimp only
        have ha : ms.length * (maxPasses - 1) - s.taken.sum =
            (ms.length * (maxPasses - 1) -
              (s.taken.set s.idx (s.taken.getD s.idx 0 + 1)).sum) + 1 := by
          omega
        rw [ha, add_mul, one_mul]
        omega
      · rw [if_neg hb] at h
        injection h with h'
        injection h' with h1 h2
        subst h1; subst h2
        refine ⟨⟨hlen, hall⟩, ?_⟩
        unfold stepsLeft
        dsimp only
        omega

/-- With fuel above the termination measure, the traversal completes and
keeps the pass-count invariant to the end. -/
theorem unrollAux_complete (ms : List Measure) (geom : List SystemBox) :
    ∀ (fuel : Nat) (s : UState), StateInv ms s → stepsLeft ms s < fuel →
      (unrollAux ms geom fuel s).2.1 = true ∧
      StateInv ms (unrollAux ms geom fuel s).2.2 := by
  intro fuel
  induction fuel with
  | zero => intro s _ hlt; omega
  | succ fuel ih =>
    intro s hInv hlt
    simp only [unrollAux]
    cases hstep : unrollStep ms geom s with
    | none => exact ⟨rfl, hInv⟩
    | some p =>
      obtain ⟨es, s'⟩ := p
      obtain ⟨hInv', hdec⟩ := unrollStep_measure ms geom s es s' hInv hstep
      exact ih s' hInv' (by omega)

theorem initState_inv (sc : Score) (ms : List Measure) :
    StateInv ms (initState sc ms.length) := by
  refine ⟨by simp [initState], ?_⟩
  intro x hx
  simp [initState] at hx
  omega

theorem stepsLeft_init (sc : Score) (ms : List Measure) :
    stepsLeft ms (initState sc ms.length) < defaultFuel ms.length := by
  unfold stepsLeft initState defaultFuel
  simp

/-! ## Lemmas: pipeline congruences -/

theorem normalizeWidth_of_nonpos (w : ℚ) (h : w ≤ 0) :
    normalizeWidth w = defaultPageWidth := if_pos h

theorem normalizeWidth_default : normalizeWidth 820 = 820 := by
  norm_num [normalizeWidth]

theorem renderPipeline_zero (d : InputDoc) (ext : Option String) (pw : ℚ) :
    renderPipeline d ext pw 0 = renderPipelineNoStage d ext pw := by
  unfold renderPipeline renderPipelineNoStage
  cases d with
  | malformed => rfl
  | wellFormed raw =>
    simp only [parseDoc, bind, Except.bind]
    cases h : buildModel raw with
    | error e => rfl
    | ok sc => simp [transposeScore_zero]

theorem playbackPipeline_zero (d : InputDoc) (ext : Option String) (pw : ℚ) :
    playbackPipeline d ext pw 0 = playbackPipelineNoStage d ext pw := by
  unfold playbackPipeline playbackPipelineNoStage
  cases d with
  | malformed => rfl
  | wellFormed raw =>
    simp only [parseDoc, bind, Except.bind]
    cases h : buildModel raw with
    | error e => rfl
    | ok sc => simp [transposeScore_zero]

theorem midiPipelineT_zero (d : InputDoc) (ext : Option String)
    (cfg : Option MidiConfig) :
    midiPipelineT d ext 0 cfg = midiPipeline d ext cfg := by
  unfold midiPipelineT midiPipeline
  cases d with
  | malformed => rfl
  | wellFormed raw =>
    simp only [parseDoc, bind, Except.bind]
    cases h : buildModel raw with
    | error e => rfl
    | ok sc => simp [transposeScore_zero]

theorem renderPipeline_congr_width (d : InputDoc) (ext : Option String)
    (t : Int) (w w' : ℚ) (h : normalizeWidth w = normalizeWidth w') :
    renderPipeline d ext w t = renderPipeline d ext w' t := by
  unfold renderPipeline
  simp only [h]

theorem playbackPipeline_congr_width (d : InputDoc) (ext : Option String)
    (t : Int) (w w' : ℚ) (h : normalizeWidth w = normalizeWidth w') :
    playbackPipeline d ext w t = playbackPipeline d ext w' t := by
  unfold playbackPipeline
  simp only [h]

/-! ## The claims -/

/-- C1.  For a one-measure document in 4/4 time containing four quarter
notes (one note per beat) at tempo 120 bpm, the Timing Unroller produces
a Playback Timeline whose entries have absolute times 0 ms, 500 ms,
1000 ms and 1500 ms, by cumulative integration of
60 / current-tempo-bpm * beat-duration-in-quarter-notes. -/
theorem scenarioA_timeline_times :
    (playbackTimeline scenarioADoc 820).map TimelineEntry.timeMs =
      [0, 500, 1000, 1500] := by
  with_unfolding_all rfl

/-- C2.  For every input document and page width, the Playback Timeline
produced by the Timing Unroller is non-decreasing in absolute elapsed
time over the full entry sequence. -/
theorem timeline_monotone (sc : Score) (pw : ℚ) :
    List.Chain' entryLe (playbackTimeline sc pw) := by
  unfold playbackTimeline unrollFull
  exact (unrollAux_chain (leadMeasures sc) (layoutScore sc pw)
    (defaultFuel (leadMeasures sc).length)
    (initState sc (leadMeasures sc).length)).1

/-- C3.  For every input document (including ones whose repeat/navigation
markers form an unresolvable loop) the Timing Unroller terminates: the
traversal completes without exhausting its fuel safety bound, and every
repeat-end's backward jump is taken at most `maxPasses - 1` times (at
most `maxPasses` = 2 passes through the repeated span); an exhausted
budget truncates the repetition instead of looping forever. -/
theorem unroller_bounded (sc : Score) (pw : ℚ) :
    (unrollFull sc pw).2.1 = true ∧
    ∀ x ∈ (unrollFull sc pw).2.2.taken, x ≤ maxPasses - 1 := by
  unfold unrollFull
  obtain ⟨hdone, hinv⟩ := unrollAux_complete (leadMeasures sc) (layoutScore sc pw)
    (defaultFuel (leadMeasures sc).length) (initState sc (leadMeasures sc).length)
    (initState_inv sc (leadMeasures sc)) (stepsLeft_init sc (leadMeasures sc))
  exact ⟨hdone, hinv.2⟩

/-- C4.  For every document, format hint, page width and MIDI
configuration, rendering with transposition offset 0 produces output
identical to rendering with the Transposition Stage omitted entirely,
for each downstream artifact: SVG, playback map, and MIDI. -/
theorem transpose_zero_matches_no_stage (d : InputDoc) (ext : Option String)
    (pw : ℚ) (cfg : Option MidiConfig) :
    scorelib_render_bytes d ext pw 0 = (renderPipelineNoStage d ext pw).toOption ∧
    scorelib_playback_map d ext pw 0 = (playbackPipelineNoStage d ext pw).toOption ∧
    midiPipelineT d ext 0 cfg = midiPipeline d ext cfg := by
  refine ⟨?_, ?_, midiPipelineT_zero d ext cfg⟩
  · unfold scorelib_render_bytes
    rw [renderPipeline_zero]
  · unfold scorelib_playback_map
    rw [playbackPipeline_zero]

/-- C5.  For every score and semitone offset n, transposing by n and then
by -n yields note-events whose pitch classes all equal the original
score's pitch classes (the display spelling may differ, the sounding
pitch-class sequence may not). -/
theorem transpose_roundtrip_pitch_classes (sc : Score) (n : Int) :
    pitchClassList (transposeScore (-n) (transposeScore n sc)) =
      pitchClassList sc := by
  unfold pitchClassList
  rw [pitchSemisList_transpose, pitchSemisList_transpose, List.map_map,
    List.map_map]
  simp [Function.comp_def]

/-- C6.  For every document, a render call given page width 0 or any
negative width does not fail differently: the width is normalized to the
default 820 user units before layout, so the output is identical to the
same call with width 820 passed explicitly. -/
theorem width_zero_normalized (d : InputDoc) (ext : Option String)
    (t : Int) (w : ℚ) (h : w ≤ 0) :
    scorelib_render_bytes d ext w t = scorelib_render_bytes d ext 820 t ∧
    scorelib_playback_map d ext w t = scorelib_playback_map d ext 820 t := by
  have hw : normalizeWidth w = normalizeWidth 820 := by
    rw [normalizeWidth_of_nonpos w h, normalizeWidth_default]
    rfl
  constructor
  · unfold scorelib_render_bytes
    rw [renderPipeline_congr_width d ext t w 820 hw]
  · unfold scorelib_playback_map
    rw [playbackPipeline_congr_width d ext t w 820 hw]

/-- Witness for C6: width 0 on the Scenario A document renders
identically to width 820. -/
theorem width_zero_normalized_witness :
    scorelib_render_bytes (InputDoc.wellFormed scenarioADoc) none 0 0 =
      scorelib_render_bytes (InputDoc.wellFormed scenarioADoc) none 820 0 ∧
    scorelib_playback_map (InputDoc.wellFormed scenarioADoc) none 0 0 =
      scorelib_playback_map (InputDoc.wellFormed scenarioADoc) none 820 0 :=
  width_zero_normalized (InputDoc.wellFormed scenarioADoc) none 0 0 (le_refl 0)

/-- C7.  Every render operation is deterministic: the pipeline is a pure
function of the document bytes and options, so repeating an invocation
on the same inputs yields identical SVG and identical SMF bytes. -/
theorem render_deterministic (d : InputDoc) (ext : Option String) (pw : ℚ)
    (t : Int) (cfg : Option MidiConfig) :
    scorelib_render_bytes d ext pw t = scorelib_render_bytes d ext pw t ∧
    scorelib_generate_midi_from_bytes d ext cfg =
      scorelib_generate_midi_from_bytes d ext cfg :=
  ⟨rfl, rfl⟩

/-- C8.  For every input on which any pipeline stage fails, the whole
operation returns the absence-of-result sentinel (`none`, the boundary's
NULL) and produces no partial SVG, JSON, or MIDI output. -/
theorem failure_yields_no_output (d : InputDoc) (ext : Option String)
    (pw : ℚ) (t : Int) (cfg : Option MidiConfig) :
    (failed (renderPipeline d ext pw t) = true →
      scorelib_render_bytes d ext pw t = none) ∧
    (failed (playbackPipeline d ext pw t) = true →
      scorelib_playback_map d ext pw t = none) ∧
    (failed (midiPipeline d ext cfg) = true →
      scorelib_generate_midi_from_bytes d ext cfg = none) := by
  refine ⟨?_, ?_, ?_⟩
  · intro hf
    unfold scorelib_render_bytes
    cases h : renderPipeline d ext pw t with
    | error e => rfl
    | ok v => rw [h] at hf; exact absurd hf (by simp [failed])
  · intro hf
    unfold scorelib_playback_map
    cases h : playbackPipeline d ext pw t with
    | error e => rfl
    | ok v => rw [h] at hf; exact absurd hf (by simp [failed])
  · intro hf
    unfold scorelib_generate_midi_from_bytes
    cases h : midiPipeline d ext cfg with
    | error e => rfl
    | ok v => rw [h] at hf; exact absurd hf (by simp [failed])

/-- Witness for C8: on a malformed document the parse stage fails and
every boundary operation returns `none`. -/
theorem failure_yields_no_output_witness :
    scorelib_render_bytes InputDoc.malformed none 820 0 = none ∧
    scorelib_playback_map InputDoc.malformed none 820 0 = none ∧
    scorelib_generate_midi_from_bytes InputDoc.malformed none none = none :=
  ⟨(failure_yields_no_output InputDoc.malformed none 820 0 none).1 rfl,
   (failure_yields_no_output InputDoc.malformed none 820 0 none).2.1 rfl,
   (failure_yields_no_output InputDoc.malformed none 820 0 none).2.2 rfl⟩

theorem badAssign_iff (sc : Score) (a : PartAssign) :
    badAssign sc a = true ↔
      a.channel < 0 ∨ 15 < a.channel ∨ sc.parts.length ≤ a.part := by
  simp [badAssign, Bool.or_eq_true, decide_eq_true_eq, or_assoc]

theorem failed_generateMidi_some (sc : Score) (cfg : MidiConfig) :
    failed (generateMidi sc (some cfg)) =
      (cfg.assignments.find? (badAssign sc)).isSome := by
  unfold generateMidi checkConfig
  dsimp only
  cases hf : cfg.assignments.find? (badAssign sc) with
  | none => rfl
  | some a =>
    dsimp only
    by_cases hc : a.channel < 0 ∨ 15 < a.channel
    · rw [if_pos hc]; rfl
    · rw [if_neg hc]; rfl

/-- C9.  The MIDI Generator fails with a `MidiGenError` exactly when the
supplied configuration specifies a channel outside 0–15 or a part index
that refers to no part of the Score; an absent configuration uses the
defaults and does not fail. -/
theorem midi_config_validation (sc : Score) (cfg : MidiConfig) :
    (failed (generateMidi sc (some cfg)) = true ↔
      ∃ a ∈ cfg.assignments,
        a.channel < 0 ∨ 15 < a.channel ∨ sc.parts.length ≤ a.part) ∧
    failed (generateMidi sc none) = false := by
  refine ⟨?_, rfl⟩
  rw [failed_generateMidi_some]
  rw [List.find?_isSome]
  constructor
  · rintro ⟨a, ha, hb⟩
    exact ⟨a, ha, (badAssign_iff sc a).1 hb⟩
  · rintro ⟨a, ha, hb⟩
    exact ⟨a, ha, (badAssign_iff sc a).2 hb⟩

/-- C10.  The two published declarations of the render interface denote
the same operations: for every document content, format hint and page
width, `scorelib_render_bytes` of `include/scorelib.h` (no transpose
parameter) returns the same result as the xcframework header's
`scorelib_render_bytes` invoked with transpose = 0, and likewise for
`scorelib_render_file`. -/
theorem headers_render_agree (d : InputDoc) (ext : Option String) (pw : ℚ) :
    scorelib_render_bytes d ext pw 0 = IncludeAPI.scorelib_render_bytes d ext pw ∧
    scorelib_render_file d pw 0 = IncludeAPI.scorelib_render_file d pw := by
  constructor
  · unfold scorelib_render_bytes IncludeAPI.scorelib_render_bytes
    rw [renderPipeline_zero]
  · unfold scorelib_render_file IncludeAPI.scorelib_render_file
    unfold scorelib_render_bytes IncludeAPI.scorelib_render_bytes
    rw [renderPipeline_zero]

/-- Witness for C3: on the self-looping document the traversal completes
and its single back-jump counter stays within the pass budget. -/
theorem unroller_bounded_witness :
    (unrollFull loopDoc 820).2.1 = true ∧ 1 ≤ maxPasses - 1 := by
  have htaken : (unrollFull loopDoc 820).2.2.taken = [1] := by
    with_unfolding_all rfl
  refine ⟨(unroller_bounded loopDoc 820).1, ?_⟩
  exact (unroller_bounded loopDoc 820).2 1 (by rw [htaken]; exact List.mem_singleton.2 rfl)

/-- Witness for C9: a configuration assigning channel 16 makes the MIDI
Generator fail, and the absent configuration does not fail, on the
Scenario A document. -/
theorem midi_config_validation_witness :
    failed (generateMidi scenarioADoc (some ⟨none, [⟨0, 16, 0⟩], 480⟩)) = true ∧
    failed (generateMidi scenarioADoc none) = false := by
  refine ⟨?_, (midi_config_validation scenarioADoc ⟨none, [⟨0, 16, 0⟩], 480⟩).2⟩
  exact (midi_config_validation scenarioADoc ⟨none, [⟨0, 16, 0⟩], 480⟩).1.2
    ⟨⟨0, 16, 0⟩, by simp, Or.inr (Or.inl (by norm_num))⟩

end Scorelib
